import Mathlib

/-!
Verification development for the logstream repository: a shallow embedding of
the entry model (src/types/log_entry.rs), its serde_json wire serialization,
the storage backend (src/server/storage.rs), the per-connection handler
(src/server/unix_socket.rs), the rotation task (src/server/rotation.rs) and
the server coordinator (src/server/mod.rs), together with theorems settling
the specification claims about them.
-/

deriving instance DecidableEq for Except

namespace LogStream

/-! ## Severity levels (src/types/log_entry.rs, enum LogLevel) -/

/-- The 8-value severity enumeration from src/types/log_entry.rs.  The Rust
source derives PartialOrd/Ord (comparison by declaration order); the Lean
`Ord` derived here likewise compares by constructor order. -/
inductive LogLevel where
  | emergency
  | alert
  | critical
  | error
  | warning
  | notice
  | info
  | debug
deriving DecidableEq, Ord

/-- The explicit discriminant values assigned in the source
(`Emergency = 0` through `Debug = 7`). -/
def LogLevel.toNat : LogLevel → Nat
  | .emergency => 0
  | .alert => 1
  | .critical => 2
  | .error => 3
  | .warning => 4
  | .notice => 5
  | .info => 6
  | .debug => 7

/-- The variant name used by the derived serde Serialize/Deserialize impls
(a unit enum variant serializes as its name string in JSON). -/
def LogLevel.serdeName : LogLevel → String
  | .emergency => "Emergency"
  | .alert => "Alert"
  | .critical => "Critical"
  | .error => "Error"
  | .warning => "Warning"
  | .notice => "Notice"
  | .info => "Info"
  | .debug => "Debug"

/-- The Display rendering from `impl fmt::Display for LogLevel`. -/
def LogLevel.display : LogLevel → String
  | .emergency => "EMERG"
  | .alert => "ALERT"
  | .critical => "CRIT"
  | .error => "ERROR"
  | .warning => "WARN"
  | .notice => "NOTICE"
  | .info => "INFO"
  | .debug => "DEBUG"

/-- Inverse of `LogLevel.serdeName`, modelling the derived Deserialize impl
for the enum: a string that is not one of the eight variant names is an
unknown-variant error. -/
def decodeLevel (s : String) : Except String LogLevel :=
  if s = "Emergency" then .ok .emergency
  else if s = "Alert" then .ok .alert
  else if s = "Critical" then .ok .critical
  else if s = "Error" then .ok .error
  else if s = "Warning" then .ok .warning
  else if s = "Notice" then .ok .notice
  else if s = "Info" then .ok .info
  else if s = "Debug" then .ok .debug
  else .error "unknown variant for LogLevel"

/-! ## The log entry (src/types/log_entry.rs, struct LogEntry)

The `Uuid` id is modelled as its hyphenated string rendering and the
`DateTime<Utc>` timestamp as its RFC3339 string rendering: both types
serialize to a JSON string and deserialize back from it, so at the wire
level (section 6 of the spec: `id` string, `timestamp` ISO-8601 string)
they are strings.  The `HashMap<String, String>` of fields is modelled as
its iteration sequence, an association list.  `pid: Option<u32>` is an
optional natural number. -/

structure LogEntry where
  id : String
  timestamp : String
  level : LogLevel
  daemon : String
  message : String
  fields : List (String × String)
  pid : Option Nat
  hostname : Option String
deriving DecidableEq

/-! ## JSON values

The JSON fragment exercised by the LogEntry wire shape: objects, strings,
unsigned integers, booleans and null.  (Arrays and signed or fractional
numbers never occur in a rendered entry and are left out of the model.)
`JMembers` is the member list of an object, kept as a separate mutual
inductive so that structural recursion over object members is direct. -/

mutual
inductive Json where
  | null : Json
  | bool : Bool → Json
  | num : Nat → Json
  | str : String → Json
  | obj : JMembers → Json
inductive JMembers where
  | nil : JMembers
  | cons : String → Json → JMembers → JMembers
end

/-- Append two member lists. -/
def JMembers.append : JMembers → JMembers → JMembers
  | .nil, m => m
  | .cons k v rest, m => .cons k v (rest.append m)

/-- The keys of a member list, in order. -/
def JMembers.keys : JMembers → List String
  | .nil => []
  | .cons k _ rest => k :: rest.keys

/-- First value stored under a key, if any. -/
def JMembers.lookup : JMembers → String → Option Json
  | .nil, _ => none
  | .cons k v rest, key => if k = key then some v else rest.lookup key

/-- Remove every member with the given key. -/
def JMembers.erase : JMembers → String → JMembers
  | .nil, _ => .nil
  | .cons k v rest, key => if k = key then rest.erase key else .cons k v (rest.erase key)

/-! ## Rendering (models serde_json::to_string)

serde_json's compact writer: no whitespace, object members in iteration
order, strings escaped per its ESCAPE table: the quote and backslash get a
two-character escape, the control characters backspace, tab, line feed,
form feed and carriage return get their short escapes, every other control
character below 0x20 becomes a lowercase `\u00XX` escape, and everything
else is written verbatim. -/

/-- Lowercase hexadecimal digit for a value below 16. -/
def hexDigitChar (n : Nat) : Char :=
  if n < 10 then Char.ofNat (48 + n) else Char.ofNat (87 + n)

/-- Decimal digit character for a value below 10. -/
def digitChar (n : Nat) : Char := Char.ofNat (48 + n)

/-- serde_json's escaping of one character inside a JSON string. -/
def escapeChar (c : Char) : List Char :=
  if c = '"' then ['\\', '"']
  else if c = '\\' then ['\\', '\\']
  else if c = '\x08' then ['\\', 'b']
  else if c = '\t' then ['\\', 't']
  else if c = '\n' then ['\\', 'n']
  else if c = '\x0c' then ['\\', 'f']
  else if c = '\r' then ['\\', 'r']
  else if c.toNat < 0x20 then
    '\\' :: 'u' :: '0' :: '0' :: [hexDigitChar (c.toNat / 16), hexDigitChar (c.toNat % 16)]
  else [c]

/-- Escaped body of a JSON string. -/
def escChars (l : List Char) : List Char := l.flatMap escapeChar

/-- A JSON string literal: quote, escaped body, quote. -/
def renderStringChars (s : String) : List Char :=
  '"' :: escChars s.data ++ ['"']

/-- Decimal digits, most significant first; structural recursion on a fuel
bound (any fuel above the number of digits gives the true digits). -/
def natCharsAux : Nat → Nat → List Char
  | 0, _ => []
  | fuel + 1, n =>
    if n < 10 then [digitChar n]
    else natCharsAux fuel (n / 10) ++ [digitChar (n % 10)]

/-- Decimal digits of a natural number, most significant first. -/
def natChars (n : Nat) : List Char := natCharsAux (n + 1) n

mutual
/-- Compact rendering of a JSON value, mirroring serde_json's writer. -/
def renderJson : Json → List Char
  | .null => "null".data
  | .bool true => "true".data
  | .bool false => "false".data
  | .num n => natChars n
  | .str s => renderStringChars s
  | .obj m => '{' :: renderMembers m ++ ['}']
/-- Compact rendering of a member list, comma separated. -/
def renderMembers : JMembers → List Char
  | .nil => []
  | .cons k v .nil => renderStringChars k ++ ':' :: renderJson v
  | .cons k v (.cons k2 v2 m) =>
    renderStringChars k ++ ':' :: renderJson v ++ ',' :: renderMembers (.cons k2 v2 m)
end

/-! ## Parsing (models serde_json::from_str)

A recursive-descent parser over the character list, mirroring serde_json's
reader on the modelled fragment: optional whitespace between tokens, strict
string escapes (including `\uXXXX` with surrogate-pair handling, and
rejection of raw control characters), the JSON integer grammar with the
no-leading-zero rule, and rejection of trailing garbage after the top-level
value.  Nesting depth is bounded by a fuel argument; the top-level entry
point supplies more fuel than any input can consume. -/

/-- JSON insignificant whitespace (space, tab, line feed, carriage return). -/
def isJsonWs (c : Char) : Bool :=
  c = ' ' || c = '\t' || c = '\n' || c = '\r'

/-- Drop leading insignificant whitespace. -/
def skipWs : List Char → List Char
  | [] => []
  | c :: cs => if isJsonWs c then skipWs cs else c :: cs

/-- ASCII decimal digit test. -/
def isDigitChar (c : Char) : Bool := 48 ≤ c.toNat && c.toNat ≤ 57

/-- Value of an ASCII decimal digit. -/
def digitVal (c : Char) : Nat := c.toNat - 48

/-- Value of a hexadecimal digit, upper or lower case. -/
def hexVal (c : Char) : Option Nat :=
  if '0' ≤ c ∧ c ≤ '9' then some (c.toNat - 48)
  else if 'a' ≤ c ∧ c ≤ 'f' then some (c.toNat - 87)
  else if 'A' ≤ c ∧ c ≤ 'F' then some (c.toNat - 55)
  else none

/-- The character denoted by a two-character escape sequence, if legal. -/
def simpleEscape (c : Char) : Option Char :=
  if c = '"' then some '"'
  else if c = '\\' then some '\\'
  else if c = '/' then some '/'
  else if c = 'b' then some '\x08'
  else if c = 'f' then some '\x0c'
  else if c = 'n' then some '\n'
  else if c = 'r' then some '\r'
  else if c = 't' then some '\t'
  else none

/-- Combine a `\uXXXX` surrogate pair into one scalar value. -/
def surrogateVal (hi lo : Nat) : Nat :=
  0x10000 + (hi - 0xD800) * 0x400 + (lo - 0xDC00)

/-- Body of a JSON string after its opening quote: the decoded characters
and the characters after the closing quote.  Rejects raw control
characters, bad escapes, lone surrogates and an unterminated string. -/
def parseStringBody : List Char → Option (List Char × List Char)
  | [] => none
  | '"' :: rest => some ([], rest)
  | '\\' :: 'u' :: a :: b :: c :: d :: rest =>
    match hexVal a, hexVal b, hexVal c, hexVal d with
    | some va, some vb, some vc, some vd =>
      let n := va * 4096 + vb * 256 + vc * 16 + vd
      if n < 0xD800 ∨ 0xDFFF < n then
        (parseStringBody rest).map (fun p => (Char.ofNat n :: p.1, p.2))
      else if n ≤ 0xDBFF then
        match rest with
        | '\\' :: 'u' :: a2 :: b2 :: c2 :: d2 :: rest2 =>
          match hexVal a2, hexVal b2, hexVal c2, hexVal d2 with
          | some va2, some vb2, some vc2, some vd2 =>
            let m := va2 * 4096 + vb2 * 256 + vc2 * 16 + vd2
            if 0xDC00 ≤ m ∧ m ≤ 0xDFFF then
              (parseStringBody rest2).map
                (fun p => (Char.ofNat (surrogateVal n m) :: p.1, p.2))
            else none
          | _, _, _, _ => none
        | _ => none
      else none
    | _, _, _, _ => none
  | '\\' :: e :: rest =>
    match simpleEscape e with
    | some d => (parseStringBody rest).map (fun p => (d :: p.1, p.2))
    | none => none
  | ['\\'] => none
  | c :: rest =>
    if c.toNat < 0x20 then none
    else (parseStringBody rest).map (fun p => (c :: p.1, p.2))

/-- The value of a run of decimal digits, most significant first. -/
def digitsToNat (ds : List Char) : Nat :=
  ds.foldl (fun a c => a * 10 + digitVal c) 0

/-- A JSON unsigned integer: a nonempty digit run, with no leading zero
unless the number is exactly 0. -/
def parseNumber (cs : List Char) : Option (Nat × List Char) :=
  match cs.takeWhile isDigitChar, cs.dropWhile isDigitChar with
  | [], _ => none
  | d :: ds, rest =>
    if d = '0' ∧ ds ≠ [] then none
    else some (digitsToNat (d :: ds), rest)

mutual
/-- One JSON value and the remaining input.  Fuel bounds nesting depth. -/
def parseValue : Nat → List Char → Option (Json × List Char)
  | 0, _ => none
  | fuel + 1, cs =>
    match skipWs cs with
    | 'n' :: 'u' :: 'l' :: 'l' :: rest => some (.null, rest)
    | 't' :: 'r' :: 'u' :: 'e' :: rest => some (.bool true, rest)
    | 'f' :: 'a' :: 'l' :: 's' :: 'e' :: rest => some (.bool false, rest)
    | '"' :: rest => (parseStringBody rest).map (fun p => (.str ⟨p.1⟩, p.2))
    | '{' :: rest =>
      match skipWs rest with
      | '}' :: rest2 => some (.obj .nil, rest2)
      | rest2 => (parseMembers fuel rest2).map (fun p => (.obj p.1, p.2))
    | cs2 => (parseNumber cs2).map (fun p => (.num p.1, p.2))
/-- The members of an object after its opening brace, known nonempty;
consumes the closing brace. -/
def parseMembers : Nat → List Char → Option (JMembers × List Char)
  | 0, _ => none
  | fuel + 1, cs =>
    match cs with
    | '"' :: rest =>
      match parseStringBody rest with
      | none => none
      | some (kcs, rest2) =>
        match skipWs rest2 with
        | [] => none
        | c3 :: rest3 =>
          if c3 = ':' then
            match parseValue fuel rest3 with
            | none => none
            | some (v, rest4) =>
              match skipWs rest4 with
              | [] => none
              | c5 :: rest5 =>
                if c5 = ',' then
                  match parseMembers fuel (skipWs rest5) with
                  | some (m, rest6) => some (.cons ⟨kcs⟩ v m, rest6)
                  | none => none
                else if c5 = '}' then some (.cons ⟨kcs⟩ v .nil, rest5)
                else none
          else none
    | _ => none
end

/-- A complete JSON document: one value, then at most trailing whitespace. -/
def parseJsonChars (cs : List Char) : Option Json :=
  match parseValue (cs.length + 1) cs with
  | some (j, rest) => if skipWs rest = [] then some j else none
  | none => none

/-- Models `serde_json::from_str` up to the typed decoding stage: the text
is parsed into a JSON value. -/
def parseJsonString (s : String) : Option Json := parseJsonChars s.data

/-! ## Fuel accounting -/

mutual
/-- Fuel sufficient for `parseValue` on a value of this shape. -/
def jSize : Json → Nat
  | .null => 1
  | .bool _ => 1
  | .num _ => 1
  | .str _ => 1
  | .obj m => 1 + mSize m
/-- Fuel sufficient for `parseMembers` on this member list. -/
def mSize : JMembers → Nat
  | .nil => 0
  | .cons _ v m => 1 + jSize v + mSize m
end

/-! ## Typed decoding (models the derived Deserialize impl of LogEntry)

serde's derived struct visitor walks the object members in order: a known
field fills its slot (a second occurrence is a duplicate-field error, a
value of the wrong shape is a type error), an unknown field is ignored,
and at the end a missing non-optional field is an error while the two
`Option` fields default to `None`. -/

/-- A string-typed field value. -/
def decodeString : Json → Except String String
  | .str s => .ok s
  | _ => .error "invalid type: expected a string"

/-- `HashMap::insert` on the association-list model: replace in place if
the key is present, append otherwise (last write wins). -/
def fieldsInsert (m : List (String × String)) (k v : String) : List (String × String) :=
  if m.any (fun p => p.1 = k) then m.map (fun p => if p.1 = k then (k, v) else p)
  else m ++ [(k, v)]

/-- Fold the members of the `fields` object into the map model; every
value must be a string. -/
def decodeFieldsMembers : JMembers → List (String × String) →
    Except String (List (String × String))
  | .nil, acc => .ok acc
  | .cons k v m, acc =>
    match v with
    | .str s => decodeFieldsMembers m (fieldsInsert acc k s)
    | _ => .error "invalid type: expected a string"

/-- The `fields` map: a JSON object of string values. -/
def decodeFields : Json → Except String (List (String × String))
  | .obj m => decodeFieldsMembers m []
  | _ => .error "invalid type: expected a map"

/-- `pid: Option<u32>`: null or an integer that fits in 32 bits. -/
def decodePid : Json → Except String (Option Nat)
  | .null => .ok none
  | .num n => if n < 4294967296 then .ok (some n) else .error "u32 out of range"
  | _ => .error "invalid type: expected u32 or null"

/-- `hostname: Option<String>`: null or a string. -/
def decodeHostname : Json → Except String (Option String)
  | .null => .ok none
  | .str s => .ok (some s)
  | _ => .error "invalid type: expected a string or null"

/-- Partially-filled LogEntry during the member walk. -/
structure RawEntry where
  id : Option String := none
  timestamp : Option String := none
  level : Option LogLevel := none
  daemon : Option String := none
  message : Option String := none
  fields : Option (List (String × String)) := none
  pid : Option (Option Nat) := none
  hostname : Option (Option String) := none
deriving DecidableEq

/-- The member walk of the derived visitor. -/
def decodeMembers : JMembers → RawEntry → Except String RawEntry
  | .nil, acc => .ok acc
  | .cons k v m, acc =>
    if k = "id" then
      match acc.id with
      | some _ => .error "duplicate field id"
      | none => (decodeString v).bind fun s => decodeMembers m { acc with id := some s }
    else if k = "timestamp" then
      match acc.timestamp with
      | some _ => .error "duplicate field timestamp"
      | none => (decodeString v).bind fun s => decodeMembers m { acc with timestamp := some s }
    else if k = "level" then
      match acc.level with
      | some _ => .error "duplicate field level"
      | none => (decodeString v).bind fun s => (decodeLevel s).bind fun lv =>
          decodeMembers m { acc with level := some lv }
    else if k = "daemon" then
      match acc.daemon with
      | some _ => .error "duplicate field daemon"
      | none => (decodeString v).bind fun s => decodeMembers m { acc with daemon := some s }
    else if k = "message" then
      match acc.message with
      | some _ => .error "duplicate field message"
      | none => (decodeString v).bind fun s => decodeMembers m { acc with message := some s }
    else if k = "fields" then
      match acc.fields with
      | some _ => .error "duplicate field fields"
      | none => (decodeFields v).bind fun fs => decodeMembers m { acc with fields := some fs }
    else if k = "pid" then
      match acc.pid with
      | some _ => .error "duplicate field pid"
      | none => (decodePid v).bind fun p => decodeMembers m { acc with pid := some p }
    else if k = "hostname" then
      match acc.hostname with
      | some _ => .error "duplicate field hostname"
      | none => (decodeHostname v).bind fun hn =>
          decodeMembers m { acc with hostname := some hn }
    else
      decodeMembers m acc

/-- End of the member walk: non-optional fields must be present, the two
`Option` fields default to none. -/
def finalizeEntry (r : RawEntry) : Except String LogEntry :=
  match r.id, r.timestamp, r.level, r.daemon, r.message, r.fields with
  | some i, some t, some lv, some d, some msg, some fs =>
    .ok { id := i, timestamp := t, level := lv, daemon := d, message := msg,
          fields := fs, pid := r.pid.getD none, hostname := r.hostname.getD none }
  | _, _, _, _, _, _ => .error "missing field"

/-- Typed decoding of a parsed JSON value into a LogEntry. -/
def decodeLogEntry : Json → Except String LogEntry
  | .obj m => (decodeMembers m {}).bind finalizeEntry
  | _ => .error "invalid type: expected a struct"

/-! ## LogEntry serialization (LogEntry::to_json / LogEntry::from_json) -/

/-- JSON value of `pid`: `Option` serializes as null or its content. -/
def pidJson : Option Nat → Json
  | none => .null
  | some p => .num p

/-- JSON value of `hostname`. -/
def hostnameJson : Option String → Json
  | none => .null
  | some h => .str h

/-- The `fields` map as JSON object members, in iteration order. -/
def fieldsToMembers : List (String × String) → JMembers
  | [] => .nil
  | (k, v) :: rest => .cons k (.str v) (fieldsToMembers rest)

/-- The object members of a serialized LogEntry: the derived Serialize impl
emits every struct field in declaration order. -/
def LogEntry.jsonMembers (e : LogEntry) : JMembers :=
  .cons "id" (.str e.id) (.cons "timestamp" (.str e.timestamp)
    (.cons "level" (.str e.level.serdeName) (.cons "daemon" (.str e.daemon)
      (.cons "message" (.str e.message)
        (.cons "fields" (.obj (fieldsToMembers e.fields))
          (.cons "pid" (pidJson e.pid)
            (.cons "hostname" (hostnameJson e.hostname) .nil)))))))

/-- The JSON value of a LogEntry. -/
def LogEntry.toJsonValue (e : LogEntry) : Json := .obj e.jsonMembers

/-- `LogEntry::to_json` (src/types/log_entry.rs line 93): serde_json
rendering of the entry.  Total: rendering never fails. -/
def LogEntry.toJson (e : LogEntry) : String := ⟨renderJson e.toJsonValue⟩

/-- `LogEntry::from_json` (src/types/log_entry.rs line 103):
`serde_json::from_str::<LogEntry>`, i.e. parse then typed decode. -/
def LogEntry.fromJson (s : String) : Except String LogEntry :=
  match parseJsonString s with
  | none => .error "invalid JSON"
  | some j => decodeLogEntry j

/-- True when a line parses as a LogEntry (the test driving the
per-connection handler's if-let). -/
def parsesAsEntry (s : String) : Bool :=
  match LogEntry.fromJson s with
  | .ok _ => true
  | .error _ => false

/-! ## Human-readable rendering (LogEntry::to_human_readable)

`to_human_readable` formats the timestamp with chrono's
`"%Y-%m-%d %H:%M:%S%.3f"` and then writes
`format("{} {} {}: {}", timestamp, level, daemon, message)`.  With the
timestamp modelled as its RFC3339 string, the chrono reformatting is the
string transformation below: date part, a space instead of the T, the
seconds, and the fractional part padded or truncated to three digits. -/

/-- chrono's `%Y-%m-%d %H:%M:%S%.3f` as a transformation of the RFC3339
timestamp string. -/
def humanTimestamp (ts : String) : String :=
  let date := ts.takeWhile (fun c => c != 'T')
  let time := ((ts.dropWhile (fun c => c != 'T')).drop 1).takeWhile
    (fun c => c != 'Z' && c != '+')
  let secs := time.takeWhile (fun c => c != '.')
  let frac := (time.dropWhile (fun c => c != '.')).drop 1
  date ++ " " ++ secs ++ "." ++ (frac ++ "000").take 3

/-- `LogEntry::to_human_readable` (src/types/log_entry.rs lines 97-100):
timestamp, Display level, daemon, colon, message.  Only these four fields
appear; id, fields, pid and hostname are not rendered. -/
def LogEntry.toHumanReadable (e : LogEntry) : String :=
  humanTimestamp e.timestamp ++ " " ++ e.level.display ++ " " ++ e.daemon ++ ": " ++ e.message

/-! ## Configuration (src/config/settings.rs) -/

/-- Core server settings. -/
structure ServerSettings where
  socketPath : String
  maxConnections : Nat
  bufferSize : Nat
deriving DecidableEq

/-- Log rotation configuration. -/
structure RotationSettings where
  enabled : Bool
  maxAgeHours : Nat
  keepFiles : Nat
deriving DecidableEq

/-- Storage configuration. -/
structure StorageSettings where
  outputDirectory : String
  maxFileSize : Nat
  rotation : RotationSettings
deriving DecidableEq

/-- File backend settings. -/
structure FileBackendSettings where
  enabled : Bool
  format : String
  compression : Bool
  compressionAlgorithm : String
deriving DecidableEq

/-- Journald backend settings. -/
structure JournaldBackendSettings where
  enabled : Bool
  syslogIdentifier : String
deriving DecidableEq

/-- Syslog backend settings. -/
structure SyslogBackendSettings where
  enabled : Bool
  facility : String
  server : Option String
deriving DecidableEq

/-- Backend configuration. -/
structure BackendSettings where
  file : FileBackendSettings
  journald : JournaldBackendSettings
  syslog : SyslogBackendSettings
deriving DecidableEq

/-- Metrics configuration. -/
structure MetricsSettings where
  enabled : Bool
  port : Nat
  path : String
deriving DecidableEq

/-- Server configuration. -/
structure ServerConfig where
  server : ServerSettings
  storage : StorageSettings
  backends : BackendSettings
  metrics : MetricsSettings
deriving DecidableEq

/-- `ServerConfig::default()` from src/config/settings.rs lines 126-147
(the nested `Default` derives fill the journald/syslog/metrics structs
with false/empty values). -/
def cfgDefault : ServerConfig :=
  { server := { socketPath := "/tmp/logstream.sock", maxConnections := 1000,
                bufferSize := 8192 }
    storage := { outputDirectory := "/var/log/logstream",
                 maxFileSize := 104857600,
                 rotation := { enabled := true, maxAgeHours := 24, keepFiles := 7 } }
    backends := { file := { enabled := true, format := "json", compression := false,
                            compressionAlgorithm := "gzip" }
                  journald := { enabled := false, syslogIdentifier := "" }
                  syslog := { enabled := false, facility := "", server := none } }
    metrics := { enabled := false, port := 0, path := "" } }

/-! ## Storage backend (src/server/storage.rs)

The per-daemon files are modelled as an association list from daemon name
to the list of stored lines, in append order; a daemon's presence in the
list is the existence of its file (lazily created on first write). -/

/-- Per-daemon stored lines; presence of a key is existence of its file. -/
abbrev StorageState := List (String × List String)

/-- Whether the daemon's log file exists. -/
def fileExists (st : StorageState) (d : String) : Bool :=
  st.any (fun p => p.1 = d)

/-- The lines of the daemon's log file, oldest first. -/
def fileLines (st : StorageState) (d : String) : List String :=
  match st.find? (fun p => p.1 = d) with
  | some p => p.2
  | none => []

/-- Append one line to the daemon's file, creating it on first write. -/
def appendLine (st : StorageState) (d : String) (line : String) : StorageState :=
  if st.any (fun p => p.1 = d) then
    st.map (fun p => if p.1 = d then (p.1, p.2 ++ [line]) else p)
  else st ++ [(d, [line])]

/-- `StorageBackend::get_log_file_path`: `output_directory/<daemon>.log`. -/
def getLogFilePath (cfg : ServerConfig) (daemon : String) : String :=
  cfg.storage.outputDirectory ++ "/" ++ daemon ++ ".log"

/-- The line rendered by `store_to_file` (src/server/storage.rs lines
50-53): `to_json` when the configured format is "json", otherwise the
human-readable rendering. -/
def formattedEntry (cfg : ServerConfig) (e : LogEntry) : String :=
  if cfg.backends.file.format = "json" then e.toJson else e.toHumanReadable

/-- `StorageBackend::store_to_file` (src/server/storage.rs lines 37-63) on
the runs where the operating-system appends succeed: look up or lazily
create the per-daemon writer and append the rendered line (the written
newline is the line separator of the model). -/
def storeToFile (cfg : ServerConfig) (st : StorageState) (e : LogEntry) : StorageState :=
  appendLine st e.daemon (formattedEntry cfg e)

/-- `StorageBackend::store_entry` (src/server/storage.rs lines 30-35):
write to the file backend only when it is enabled, then return Ok. -/
def storeEntry (cfg : ServerConfig) (st : StorageState) (e : LogEntry) : StorageState :=
  if cfg.backends.file.enabled then storeToFile cfg st e else st

/-- The storage-error classes of `LogStreamError` that `store_entry` can
surface (Io from the append path, Serde reserved for a failing renderer). -/
inductive StorageError where
  | io : String → StorageError
  | serde : String → StorageError
deriving DecidableEq

/-- `store_entry` as the per-connection handler sees it, on runs where the
underlying appends succeed: the new state, always Ok (a disabled backend
in particular returns Ok without touching anything). -/
def connStore (cfg : ServerConfig) : LogEntry → StorageState → Except StorageError StorageState :=
  fun e st => .ok (storeEntry cfg st e)

/-! ## Per-connection handler (src/server/unix_socket.rs lines 67-88)

`handle_connection` reads lines until EOF or a read error (both end the
task cleanly) and for each line runs
`if let Ok(entry) = serde_json::from_str(line.trim()) { storage.store_entry(entry).await? }`:
an unparseable line is dropped and the loop continues; a storage error is
propagated out of the handler by `?`.  The handler is modelled over the
list of lines read from the connection and the store operation of the
`storage` argument, threading the storage state. -/

/-- `str::trim` on a read line, modelled over the wire's whitespace
(space, tab, line feed, carriage return; the trailing newline of
`read_line` in particular). -/
def strTrim (s : String) : String :=
  ⟨((s.data.dropWhile isJsonWs).reverse.dropWhile isJsonWs).reverse⟩

/-- The per-connection read loop over the lines read from the socket. -/
def handleConnection {σ ε : Type} (store : LogEntry → σ → Except ε σ) :
    List String → σ → Except ε σ
  | [], st => .ok st
  | line :: rest, st =>
    match LogEntry.fromJson (strTrim line) with
    | .ok entry =>
      match store entry st with
      | .ok st2 => handleConnection store rest st2
      | .error err => .error err
    | .error _ => handleConnection store rest st

/-! ## Rotation task (src/server/rotation.rs lines 24-41)

`start_rotation_task` returns at once when rotation is disabled; otherwise
it loops on a `select!` between the hourly interval tick — whose body is
empty (the source comment reads "Rotation logic would go here") — and the
shutdown signal, which breaks the loop.  The state of archived files per
daemon is threaded through the ticks to make the (absent) effect of each
tick explicit. -/

/-- Archived (rotated) files per daemon name. -/
abbrev ArchiveState := List (String × List String)

/-- Number of archived files currently retained for a daemon. -/
def archivedCount (ar : ArchiveState) (d : String) : Nat :=
  match ar.find? (fun p => p.1 = d) with
  | some p => p.2.length
  | none => 0

/-- The archive state after the rotation task has seen the given number of
interval ticks: the disabled task returns immediately, and an enabled
task's tick body performs no rotation and no pruning. -/
def runRotationTask (cfg : ServerConfig) (ticks : Nat) (ar : ArchiveState) : ArchiveState :=
  if cfg.storage.rotation.enabled = false then ar
  else
    match ticks with
    | 0 => ar
    | t + 1 => runRotationTask cfg t ar

/-! ## Server coordinator (src/server/mod.rs lines 23-48) -/

/-- The long-running components the coordinator can run. -/
inductive ServerTask where
  | unixListener : ServerTask
  | rotationTask : ServerTask
deriving DecidableEq

/-- `LogServer::start` (src/server/mod.rs lines 39-47): constructs a
UnixSocketServer over the shared storage and a shutdown subscription and
awaits its `start`.  No `LogRotator` is constructed and
`start_rotation_task` is never called from the server path, so the
listener is the only component run. -/
def logServerStartTasks (cfg : ServerConfig) : List ServerTask :=
  [ServerTask.unixListener]

/-! ## Auxiliary definitions for the proofs -/

/-- Heads of the remaining input do not continue a digit run. -/
def noDigitHead (cs : List Char) : Bool :=
  match cs with
  | [] => true
  | c :: _ => !isDigitChar c

/-- After a rendered value, the remaining input must not extend the token
(this only constrains numbers, which are not self-delimiting). -/
def delimOk : Json → List Char → Prop
  | .num _, rest => noDigitHead rest = true
  | _, _ => True

/-- The 8 field names of the LogEntry wire shape. -/
def entryKeys : List String :=
  ["id", "timestamp", "level", "daemon", "message", "fields", "pid", "hostname"]

/-- The fully-filled accumulator a successful member walk produces. -/
def rawOf (e : LogEntry) : RawEntry :=
  { id := some e.id, timestamp := some e.timestamp, level := some e.level,
    daemon := some e.daemon, message := some e.message, fields := some e.fields,
    pid := some e.pid, hostname := some e.hostname }

/-! ### Concrete sample data used by the witnesses -/

/-- A concrete entry exercising every field. -/
def sampleEntry : LogEntry :=
  { id := "3fa85f64-5717-4562-b3fc-2c963f66afa6"
    timestamp := "2024-01-01T12:00:00.123456789Z"
    level := .warning
    daemon := "test-daemon"
    message := "hello \"world\""
    fields := [("k1", "v1"), ("k2", "v2")]
    pid := some 12345
    hostname := some "host01" }

/-- A second entry for the same daemon. -/
def sampleEntry2 : LogEntry :=
  { id := "00000000-0000-4000-8000-000000000001"
    timestamp := "2024-01-01T12:00:01Z"
    level := .info
    daemon := "test-daemon"
    message := "second"
    fields := []
    pid := none
    hostname := none }

/-- An entry differing from `sampleEntry` only in id, fields, pid and
hostname. -/
def sampleEntry3 : LogEntry :=
  { sampleEntry with
    id := "ffffffff-ffff-4fff-8fff-ffffffffffff"
    fields := [("other", "x")]
    pid := none
    hostname := none }

/-- The default configuration with the human-readable file format. -/
def cfgHuman : ServerConfig :=
  { cfgDefault with backends := { cfgDefault.backends with
      file := { cfgDefault.backends.file with format := "human" } } }

/-- The default configuration with the file backend disabled. -/
def cfgDisabled : ServerConfig :=
  { cfgDefault with backends := { cfgDefault.backends with
      file := { cfgDefault.backends.file with enabled := false } } }

/-- A rotation configuration retaining a single archived file. -/
def cfgKeepOne : ServerConfig :=
  { cfgDefault with storage := { cfgDefault.storage with
      rotation := { enabled := true, maxAgeHours := 24, keepFiles := 1 } } }

/-- An archive directory already holding three rotated files for one
daemon. -/
def archThree : ArchiveState :=
  [("daemon-a", ["daemon-a.log.1", "daemon-a.log.2", "daemon-a.log.3"])]

/-! ## Inversion of the renderer by the parser -/

theorem hexVal_hexDigitChar (k : Nat) (h : k < 16) : hexVal (hexDigitChar k) = some k := by
  interval_cases k <;> decide

theorem parseStringBody_u00 (c : Char) (t : List Char) (h : c.toNat < 0x20) :
    parseStringBody ('\\' :: 'u' :: '0' :: '0' ::
      hexDigitChar (c.toNat / 16) :: hexDigitChar (c.toNat % 16) :: t) =
    (parseStringBody t).map (fun p => (c :: p.1, p.2)) := by
  have h16 : c.toNat % 16 < 16 := Nat.mod_lt _ (by omega)
  have hdiv : c.toNat / 16 < 16 := by omega
  simp only [parseStringBody, hexVal_hexDigitChar _ h16, hexVal_hexDigitChar _ hdiv]
  have e0 : hexVal '0' = some 0 := rfl
  rw [e0]
  have harith : 0 * 4096 + 0 * 256 + c.toNat / 16 * 16 + c.toNat % 16 = c.toNat := by omega
  simp only [harith]
  rw [if_pos (Or.inl (by omega : c.toNat < 55296)), Char.ofNat_toNat]

set_option maxHeartbeats 1000000 in
theorem parseStringBody_raw (c : Char) (t : List Char) (h1 : c ≠ '"') (h2 : c ≠ '\\')
    (h3 : ¬ c.toNat < 0x20) :
    parseStringBody (c :: t) = (parseStringBody t).map (fun p => (c :: p.1, p.2)) := by
  rw [parseStringBody.eq_def]
  split
  · simp_all
  · simp_all
  · simp_all
  · simp_all
  · simp_all
  · rename_i heq
    injection heq with hc ht
    subst hc
    subst ht
    rw [if_neg h3]

theorem parseStringBody_escapeChar (c : Char) (t : List Char) :
    parseStringBody (escapeChar c ++ t) = (parseStringBody t).map (fun p => (c :: p.1, p.2)) := by
  by_cases h1 : c = '"'
  · subst h1; rfl
  by_cases h2 : c = '\\'
  · subst h2; rfl
  by_cases h3 : c = '\x08'
  · subst h3; rfl
  by_cases h4 : c = '\t'
  · subst h4; rfl
  by_cases h5 : c = '\n'
  · subst h5; rfl
  by_cases h6 : c = '\x0c'
  · subst h6; rfl
  by_cases h7 : c = '\r'
  · subst h7; rfl
  by_cases h8 : c.toNat < 0x20
  · have he : escapeChar c = ['\\', 'u', '0', '0',
        hexDigitChar (c.toNat / 16), hexDigitChar (c.toNat % 16)] := by
      unfold escapeChar
      rw [if_neg h1, if_neg h2, if_neg h3, if_neg h4, if_neg h5, if_neg h6, if_neg h7, if_pos h8]
    rw [he]
    exact parseStringBody_u00 c t h8
  · have he : escapeChar c = [c] := by
      unfold escapeChar
      rw [if_neg h1, if_neg h2, if_neg h3, if_neg h4, if_neg h5, if_neg h6, if_neg h7, if_neg h8]
    rw [he]
    exact parseStringBody_raw c t h1 h2 h8

theorem parseStringBody_escChars (l : List Char) (rest : List Char) :
    parseStringBody (escChars l ++ '"' :: rest) = some (l, rest) := by
  induction l with
  | nil => rfl
  | cons c l ih =>
    have h : escChars (c :: l) = escapeChar c ++ escChars l := by simp [escChars]
    rw [h, List.append_assoc, parseStringBody_escapeChar, ih]
    rfl

theorem digitVal_digitChar (n : Nat) (h : n < 10) : digitVal (digitChar n) = n := by
  interval_cases n <;> decide

theorem isDigitChar_digitChar (n : Nat) (h : n < 10) : isDigitChar (digitChar n) = true := by
  interval_cases n <;> decide

theorem digitChar_ne_zero (n : Nat) (h1 : 1 ≤ n) (h2 : n < 10) : digitChar n ≠ '0' := by
  interval_cases n <;> decide

theorem natCharsAux_spec (fuel : Nat) : ∀ n, n < fuel →
    digitsToNat (natCharsAux fuel n) = n ∧ natCharsAux fuel n ≠ [] ∧
      (∀ c ∈ natCharsAux fuel n, isDigitChar c = true) := by
  induction fuel with
  | zero => intro n h; omega
  | succ fuel ih =>
    intro n h
    by_cases h10 : n < 10
    · refine ⟨?_, ?_, ?_⟩
      · simp [natCharsAux, h10, digitsToNat, digitVal_digitChar n h10]
      · simp [natCharsAux, h10]
      · simp [natCharsAux, h10, isDigitChar_digitChar n h10]
    · have hd : n / 10 < fuel := by omega
      obtain ⟨iv, ine, idig⟩ := ih (n / 10) hd
      have he : natCharsAux (fuel + 1) n = natCharsAux fuel (n / 10) ++ [digitChar (n % 10)] := by
        simp [natCharsAux, h10]
      refine ⟨?_, ?_, ?_⟩
      · rw [he]
        have h2 : digitsToNat (natCharsAux fuel (n / 10) ++ [digitChar (n % 10)]) =
            digitsToNat (natCharsAux fuel (n / 10)) * 10 + digitVal (digitChar (n % 10)) := by
          simp [digitsToNat, List.foldl_append]
        rw [h2, iv, digitVal_digitChar _ (by omega)]
        omega
      · rw [he]; simp
      · rw [he]
        intro c hc
        rcases List.mem_append.mp hc with hc | hc
        · exact idig c hc
        · simp at hc
          rw [hc]
          exact isDigitChar_digitChar _ (by omega)

theorem natChars_spec (n : Nat) :
    digitsToNat (natChars n) = n ∧ natChars n ≠ [] ∧
      (∀ c ∈ natChars n, isDigitChar c = true) :=
  natCharsAux_spec (n + 1) n (by omega)

theorem natCharsAux_head_ne_zero (fuel : Nat) : ∀ n, n < fuel → 1 ≤ n →
    ∀ d ds, natCharsAux fuel n = d :: ds → d ≠ '0' := by
  induction fuel with
  | zero => intro n h; omega
  | succ fuel ih =>
    intro n h h1 d ds he
    by_cases h10 : n < 10
    · simp [natCharsAux, h10] at he
      rw [← he.1]
      exact digitChar_ne_zero n h1 h10
    · have hd0 : 1 ≤ n / 10 := by omega
      have hdlt : n / 10 < fuel := by omega
      obtain ⟨iv, ine, idig⟩ := natCharsAux_spec fuel (n / 10) hdlt
      simp [natCharsAux, h10] at he
      obtain ⟨d2, ds2, he2⟩ := List.exists_cons_of_ne_nil ine
      rw [he2] at he
      simp at he
      rw [← he.1]
      exact ih (n / 10) hdlt hd0 d2 ds2 he2

theorem takeWhile_append_all {p : Char → Bool} (xs : List Char) : ∀ rest : List Char,
    (∀ c ∈ xs, p c = true) → (∀ c cs, rest = c :: cs → p c = false) →
    (xs ++ rest).takeWhile p = xs ∧ (xs ++ rest).dropWhile p = rest := by
  induction xs with
  | nil =>
    intro rest _ hr
    cases rest with
    | nil => simp
    | cons c cs => simp [List.takeWhile, List.dropWhile, hr c cs rfl]
  | cons x xs ih =>
    intro rest hx hr
    have hpx : p x = true := hx x (by simp)
    obtain ⟨h1, h2⟩ := ih rest (fun c hc => hx c (by simp [hc])) hr
    simp [List.takeWhile, List.dropWhile, hpx, h1, h2]

theorem parseNumber_natChars (n : Nat) (rest : List Char)
    (hr : noDigitHead rest = true) :
    parseNumber (natChars n ++ rest) = some (n, rest) := by
  obtain ⟨hv, hne, hdig⟩ := natChars_spec n
  have hr2 : ∀ c cs, rest = c :: cs → isDigitChar c = false := by
    intro c cs he
    rw [he] at hr
    simpa [noDigitHead] using hr
  obtain ⟨ht, hd⟩ := takeWhile_append_all (natChars n) rest hdig hr2
  obtain ⟨d, ds, hcons⟩ := List.exists_cons_of_ne_nil hne
  unfold parseNumber
  rw [ht, hd, hcons]
  dsimp only
  by_cases h0 : n = 0
  · subst h0
    have hz : natChars 0 = ['0'] := rfl
    rw [hz] at hcons
    injection hcons with hc1 hc2
    subst hc1; subst hc2
    simp [digitsToNat, digitVal]
  · have hdz : d ≠ '0' :=
      natCharsAux_head_ne_zero (n + 1) n (by omega) (by omega) d ds hcons
    rw [if_neg (by simp [hdz])]
    rw [← hcons, hv]

theorem parseValue_digit (fuel : Nat) (c : Char) (t : List Char) (hc : isDigitChar c = true) :
    parseValue (fuel + 1) (c :: t) = (parseNumber (c :: t)).map (fun p => (Json.num p.1, p.2)) := by
  have hb : 48 ≤ c.toNat ∧ c.toNat ≤ 57 := by simpa [isDigitChar] using hc
  have hws : isJsonWs c = false := by
    have h1 : c ≠ ' ' := by intro h; rw [h] at hb; exact absurd hb.1 (by decide)
    have h2 : c ≠ '\t' := by intro h; rw [h] at hb; exact absurd hb.1 (by decide)
    have h3 : c ≠ '\n' := by intro h; rw [h] at hb; exact absurd hb.1 (by decide)
    have h4 : c ≠ '\r' := by intro h; rw [h] at hb; exact absurd hb.1 (by decide)
    simp [isJsonWs, h1, h2, h3, h4]
  have hsk : skipWs (c :: t) = c :: t := by simp [skipWs, hws]
  rw [parseValue.eq_def]
  dsimp only
  rw [hsk]
  split
  · rename_i heq
    injection heq with hh _
    rw [hh] at hb
    exact absurd hb.2 (by decide)
  · rename_i heq
    injection heq with hh _
    rw [hh] at hb
    exact absurd hb.2 (by decide)
  · rename_i heq
    injection heq with hh _
    rw [hh] at hb
    exact absurd hb.2 (by decide)
  · rename_i heq
    injection heq with hh _
    rw [hh] at hb
    exact absurd hb.1 (by decide)
  · rename_i heq
    injection heq with hh _
    rw [hh] at hb
    exact absurd hb.2 (by decide)
  · rfl

theorem delimOk_of_head (j : Json) (c : Char) (r : List Char)
    (h : isDigitChar c = false) : delimOk j (c :: r) := by
  cases j <;> simp [delimOk, noDigitHead, h]

theorem jSize_pos (j : Json) : 1 ≤ jSize j := by
  cases j with
  | obj m => cases m <;> simp [jSize, mSize] <;> omega
  | null => simp [jSize]
  | bool b => simp [jSize]
  | num n => simp [jSize]
  | str s => simp [jSize]

mutual
theorem parseValue_render (j : Json) (fuel : Nat) (rest : List Char)
    (hf : jSize j ≤ fuel) (hd : delimOk j rest) :
    parseValue fuel (renderJson j ++ rest) = some (j, rest) := by
  cases fuel with
  | zero => exact absurd (le_trans (jSize_pos j) hf) (by omega)
  | succ fuel =>
    cases j with
    | null => rfl
    | bool b => cases b <;> rfl
    | num n =>
      have hdn : noDigitHead rest = true := hd
      obtain ⟨hv, hne, hdig⟩ := natChars_spec n
      obtain ⟨d, ds, hcons⟩ := List.exists_cons_of_ne_nil hne
      have hrj : renderJson (Json.num n) ++ rest = d :: (ds ++ rest) := by
        simp [renderJson, hcons]
      rw [hrj, parseValue_digit fuel d (ds ++ rest) (hdig d (by simp [hcons]))]
      have hback : d :: (ds ++ rest) = natChars n ++ rest := by simp [hcons]
      rw [hback, parseNumber_natChars n rest hdn]
      rfl
    | str s =>
      have hrj : renderJson (Json.str s) ++ rest
          = '"' :: (escChars s.data ++ '"' :: rest) := by
        simp [renderJson, renderStringChars]
      rw [hrj]
      show (parseStringBody (escChars s.data ++ '"' :: rest)).map
        (fun p => (Json.str ⟨p.1⟩, p.2)) = some (Json.str s, rest)
      rw [parseStringBody_escChars]
      rfl
    | obj m =>
      cases m with
      | nil => rfl
      | cons k v m2 =>
        have hfm : mSize (JMembers.cons k v m2) ≤ fuel := by
          simp [jSize] at hf; omega
        have hX : ∃ X, renderMembers (JMembers.cons k v m2) = '"' :: X := by
          cases m2 <;> exact ⟨_, rfl⟩
        obtain ⟨X, hXe⟩ := hX
        have hrj : renderJson (Json.obj (JMembers.cons k v m2)) ++ rest
            = '{' :: '"' :: (X ++ '}' :: rest) := by
          simp [renderJson, hXe]
        rw [hrj]
        show (parseMembers fuel ('"' :: (X ++ '}' :: rest))).map
          (fun p => (Json.obj p.1, p.2)) = some (Json.obj (JMembers.cons k v m2), rest)
        have hback : ('"' : Char) :: (X ++ '}' :: rest)
            = renderMembers (JMembers.cons k v m2) ++ '}' :: rest := by
          simp [hXe]
        rw [hback, parseMembers_render k v m2 fuel rest hfm]
        rfl
termination_by sizeOf j
theorem parseMembers_render (k : String) (v : Json) (m : JMembers) (fuel : Nat)
    (rest : List Char) (hf : mSize (.cons k v m) ≤ fuel) :
    parseMembers fuel (renderMembers (.cons k v m) ++ '}' :: rest)
      = some (.cons k v m, rest) := by
  cases fuel with
  | zero => simp [mSize] at hf
  | succ fuel =>
    have hfv : jSize v ≤ fuel := by simp [mSize] at hf; omega
    cases m with
    | nil =>
      have hin : renderMembers (JMembers.cons k v JMembers.nil) ++ '}' :: rest
          = '"' :: (escChars k.data ++ '"' :: (':' :: (renderJson v ++ '}' :: rest))) := by
        simp [renderMembers, renderStringChars]
      rw [hin]
      simp only [parseMembers]
      rw [parseStringBody_escChars]
      have hsk1 : skipWs (':' :: (renderJson v ++ '}' :: rest))
          = ':' :: (renderJson v ++ '}' :: rest) := rfl
      try dsimp only
      rw [hsk1]
      try dsimp only
      rw [if_pos rfl]
      rw [parseValue_render v fuel ('}' :: rest) hfv
        (delimOk_of_head v '}' rest (by decide))]
      have hsk2 : skipWs ('}' :: rest) = '}' :: rest := rfl
      try dsimp only
      rw [hsk2]
      try dsimp only
      rw [if_neg (by decide : ¬('}' : Char) = ','), if_pos rfl]
    | cons k2 v2 m2 =>
      have hfm2 : mSize (JMembers.cons k2 v2 m2) ≤ fuel := by
        simp [mSize] at hf ⊢; omega
      have hin : renderMembers (JMembers.cons k v (JMembers.cons k2 v2 m2)) ++ '}' :: rest
          = '"' :: (escChars k.data ++ '"' :: (':' :: (renderJson v ++ ',' ::
              (renderMembers (JMembers.cons k2 v2 m2) ++ '}' :: rest)))) := by
        simp [renderMembers, renderStringChars]
      rw [hin]
      simp only [parseMembers]
      rw [parseStringBody_escChars]
      have hsk1 : skipWs (':' :: (renderJson v ++ ',' ::
          (renderMembers (JMembers.cons k2 v2 m2) ++ '}' :: rest)))
        = ':' :: (renderJson v ++ ',' ::
          (renderMembers (JMembers.cons k2 v2 m2) ++ '}' :: rest)) := rfl
      try dsimp only
      rw [hsk1]
      try dsimp only
      rw [if_pos rfl]
      rw [parseValue_render v fuel (',' ::
          (renderMembers (JMembers.cons k2 v2 m2) ++ '}' :: rest)) hfv
        (delimOk_of_head v ',' _ (by decide))]
      have hsk3 : skipWs (',' :: (renderMembers (JMembers.cons k2 v2 m2) ++ '}' :: rest))
          = ',' :: (renderMembers (JMembers.cons k2 v2 m2) ++ '}' :: rest) := rfl
      try dsimp only
      rw [hsk3]
      try dsimp only
      rw [if_pos rfl]
      have hX : ∃ X, renderMembers (JMembers.cons k2 v2 m2) = '"' :: X := by
        cases m2 <;> exact ⟨_, rfl⟩
      obtain ⟨X, hXe⟩ := hX
      have hsk : skipWs (renderMembers (JMembers.cons k2 v2 m2) ++ '}' :: rest)
          = renderMembers (JMembers.cons k2 v2 m2) ++ '}' :: rest := by
        rw [hXe]; rfl
      rw [hsk, parseMembers_render k2 v2 m2 fuel rest hfm2]
termination_by sizeOf v + sizeOf m
end

/-! ## Top-level parse of a rendered value -/

theorem renderStringChars_len (s : String) : 2 ≤ (renderStringChars s).length := by
  simp [renderStringChars]

mutual
theorem jSize_le_len (j : Json) : jSize j ≤ (renderJson j).length := by
  cases j with
  | null => simp [jSize, renderJson]
  | bool b => cases b <;> simp [jSize, renderJson]
  | num n =>
    have := (natChars_spec n).2.1
    have hlen : 1 ≤ (natChars n).length := by
      cases h : natChars n with
      | nil => exact absurd h this
      | cons a l => simp
    simpa [jSize, renderJson] using hlen
  | str s =>
    have h := renderStringChars_len s
    simp only [jSize, renderJson]
    omega
  | obj m =>
    cases m with
    | nil => simp [jSize, mSize, renderJson, renderMembers]
    | cons k v m2 =>
      have h := mSize_le_len k v m2
      simp only [jSize, renderJson, List.length_cons, List.length_append]
      simp at h ⊢
      omega
termination_by sizeOf j
theorem mSize_le_len (k : String) (v : Json) (m : JMembers) :
    mSize (.cons k v m) ≤ (renderMembers (.cons k v m)).length + 1 := by
  cases m with
  | nil =>
    have hv := jSize_le_len v
    have hk := renderStringChars_len k
    simp only [mSize, renderMembers, List.length_append, List.length_cons]
    simp [mSize]
    omega
  | cons k2 v2 m2 =>
    have hv := jSize_le_len v
    have hk := renderStringChars_len k
    have hm := mSize_le_len k2 v2 m2
    simp only [mSize, renderMembers, List.length_append, List.length_cons] at hm ⊢
    omega
termination_by sizeOf v + sizeOf m
end

theorem delimOk_nil (j : Json) : delimOk j [] := by
  cases j <;> simp [delimOk, noDigitHead]

theorem parseJsonChars_render (j : Json) : parseJsonChars (renderJson j) = some j := by
  unfold parseJsonChars
  have hp := parseValue_render j ((renderJson j).length + 1) []
    (le_trans (jSize_le_len j) (by omega)) (delimOk_nil j)
  rw [List.append_nil] at hp
  rw [hp]
  rfl

/-! ## Typed decoding of a rendered entry -/

theorem decodeLevel_serdeName (lv : LogLevel) : decodeLevel lv.serdeName = .ok lv := by
  cases lv <;> rfl

theorem decodePid_inv (p : Option Nat) (hb : ∀ x ∈ p, x < 4294967296) :
    decodePid (pidJson p) = .ok p := by
  cases p with
  | none => rfl
  | some x => simp [pidJson, decodePid, hb x (by simp)]

theorem decodeHostname_inv (h : Option String) : decodeHostname (hostnameJson h) = .ok h := by
  cases h <;> rfl

theorem fieldsInsert_fresh (acc : List (String × String)) (k v : String)
    (h : k ∉ acc.map Prod.fst) : fieldsInsert acc k v = acc ++ [(k, v)] := by
  unfold fieldsInsert
  rw [if_neg]
  simp only [List.any_eq_true, Prod.exists, decide_eq_true_eq, not_exists]
  intro a b hab
  obtain ⟨hmem, hak⟩ := hab
  exact h (by simp only [List.mem_map]; exact ⟨(a, b), hmem, hak⟩)

theorem decodeFieldsMembers_acc (l : List (String × String)) : ∀ acc,
    (l.map Prod.fst).Nodup →
    (∀ k ∈ l.map Prod.fst, k ∉ acc.map Prod.fst) →
    decodeFieldsMembers (fieldsToMembers l) acc = .ok (acc ++ l) := by
  induction l with
  | nil => intro acc _ _; simp [fieldsToMembers, decodeFieldsMembers]
  | cons kv l ih =>
    intro acc hnd hdisj
    obtain ⟨k, v⟩ := kv
    have hk : k ∉ acc.map Prod.fst := hdisj k (by simp)
    rw [show fieldsToMembers ((k, v) :: l) = .cons k (.str v) (fieldsToMembers l) from rfl]
    simp only [decodeFieldsMembers]
    rw [fieldsInsert_fresh acc k v hk]
    have hnd2 : (l.map Prod.fst).Nodup := by simpa using hnd.of_cons
    have hkl : k ∉ l.map Prod.fst := by
      simp only [List.map_cons, List.nodup_cons] at hnd
      exact hnd.1
    have hdisj2 : ∀ k2 ∈ l.map Prod.fst, k2 ∉ (acc ++ [(k, v)]).map Prod.fst := by
      intro k2 hk2
      simp only [List.map_append, List.mem_append]
      rintro (h | h)
      · exact hdisj k2 (by simp [hk2]) h
      · simp at h
        rw [h] at hk2
        exact hkl hk2
    rw [ih (acc ++ [(k, v)]) hnd2 hdisj2]
    simp

theorem decodeFields_inv (l : List (String × String)) (h : (l.map Prod.fst).Nodup) :
    decodeFields (.obj (fieldsToMembers l)) = .ok l := by
  show decodeFieldsMembers (fieldsToMembers l) [] = Except.ok l
  rw [decodeFieldsMembers_acc l [] h (by simp)]
  rfl

/-! ### One member-walk step per field -/

theorem dmStep_id (s : String) (m : JMembers) (acc : RawEntry) (h : acc.id = none) :
    decodeMembers (.cons "id" (.str s) m) acc
      = decodeMembers m { acc with id := some s } := by
  rw [show decodeMembers (.cons "id" (.str s) m) acc
      = (match acc.id with
         | some _ => Except.error "duplicate field id"
         | none => (decodeString (.str s)).bind fun s2 =>
             decodeMembers m { acc with id := some s2 }) from rfl, h]
  rfl

theorem dmStep_timestamp (s : String) (m : JMembers) (acc : RawEntry)
    (h : acc.timestamp = none) :
    decodeMembers (.cons "timestamp" (.str s) m) acc
      = decodeMembers m { acc with timestamp := some s } := by
  rw [show decodeMembers (.cons "timestamp" (.str s) m) acc
      = (match acc.timestamp with
         | some _ => Except.error "duplicate field timestamp"
         | none => (decodeString (.str s)).bind fun s2 =>
             decodeMembers m { acc with timestamp := some s2 }) from rfl, h]
  rfl

theorem dmStep_level (lv : LogLevel) (m : JMembers) (acc : RawEntry)
    (h : acc.level = none) :
    decodeMembers (.cons "level" (.str lv.serdeName) m) acc
      = decodeMembers m { acc with level := some lv } := by
  rw [show decodeMembers (.cons "level" (.str lv.serdeName) m) acc
      = (match acc.level with
         | some _ => Except.error "duplicate field level"
         | none => (decodeString (.str lv.serdeName)).bind fun s2 =>
             (decodeLevel s2).bind fun l2 =>
               decodeMembers m { acc with level := some l2 }) from rfl, h]
  show (decodeLevel lv.serdeName).bind _ = _
  rw [decodeLevel_serdeName]
  rfl

theorem dmStep_daemon (s : String) (m : JMembers) (acc : RawEntry)
    (h : acc.daemon = none) :
    decodeMembers (.cons "daemon" (.str s) m) acc
      = decodeMembers m { acc with daemon := some s } := by
  rw [show decodeMembers (.cons "daemon" (.str s) m) acc
      = (match acc.daemon with
         | some _ => Except.error "duplicate field daemon"
         | none => (decodeString (.str s)).bind fun s2 =>
             decodeMembers m { acc with daemon := some s2 }) from rfl, h]
  rfl

theorem dmStep_message (s : String) (m : JMembers) (acc : RawEntry)
    (h : acc.message = none) :
    decodeMembers (.cons "message" (.str s) m) acc
      = decodeMembers m { acc with message := some s } := by
  rw [show decodeMembers (.cons "message" (.str s) m) acc
      = (match acc.message with
         | some _ => Except.error "duplicate field message"
         | none => (decodeString (.str s)).bind fun s2 =>
             decodeMembers m { acc with message := some s2 }) from rfl, h]
  rfl

theorem dmStep_fields (l : List (String × String)) (m : JMembers) (acc : RawEntry)
    (h : acc.fields = none) (hnd : (l.map Prod.fst).Nodup) :
    decodeMembers (.cons "fields" (.obj (fieldsToMembers l)) m) acc
      = decodeMembers m { acc with fields := some l } := by
  rw [show decodeMembers (.cons "fields" (.obj (fieldsToMembers l)) m) acc
      = (match acc.fields with
         | some _ => Except.error "duplicate field fields"
         | none => (decodeFields (.obj (fieldsToMembers l))).bind fun fs =>
             decodeMembers m { acc with fields := some fs }) from rfl, h,
    decodeFields_inv l hnd]
  rfl

theorem dmStep_pid (p : Option Nat) (m : JMembers) (acc : RawEntry)
    (h : acc.pid = none) (hb : ∀ x ∈ p, x < 4294967296) :
    decodeMembers (.cons "pid" (pidJson p) m) acc
      = decodeMembers m { acc with pid := some p } := by
  rw [show decodeMembers (.cons "pid" (pidJson p) m) acc
      = (match acc.pid with
         | some _ => Except.error "duplicate field pid"
         | none => (decodePid (pidJson p)).bind fun p2 =>
             decodeMembers m { acc with pid := some p2 }) from rfl, h,
    decodePid_inv p hb]
  rfl

theorem dmStep_hostname (hn : Option String) (m : JMembers) (acc : RawEntry)
    (h : acc.hostname = none) :
    decodeMembers (.cons "hostname" (hostnameJson hn) m) acc
      = decodeMembers m { acc with hostname := some hn } := by
  rw [show decodeMembers (.cons "hostname" (hostnameJson hn) m) acc
      = (match acc.hostname with
         | some _ => Except.error "duplicate field hostname"
         | none => (decodeHostname (hostnameJson hn)).bind fun h2 =>
             decodeMembers m { acc with hostname := some h2 }) from rfl, h,
    decodeHostname_inv hn]
  rfl

theorem dmStep_unknown (k : String) (v : Json) (m : JMembers) (acc : RawEntry)
    (hk : k ∉ entryKeys) :
    decodeMembers (.cons k v m) acc = decodeMembers m acc := by
  simp only [entryKeys, List.mem_cons, not_or] at hk
  obtain ⟨h1, h2, h3, h4, h5, h6, h7, h8, -⟩ := hk
  simp only [decodeMembers]
  rw [if_neg h1, if_neg h2, if_neg h3, if_neg h4, if_neg h5, if_neg h6, if_neg h7,
    if_neg h8]

/-! ### The standard member walk -/

theorem decodeMembers_entry (e : LogEntry) (hf : (e.fields.map Prod.fst).Nodup)
    (hp : ∀ p ∈ e.pid, p < 4294967296) :
    decodeMembers e.jsonMembers {} = .ok (rawOf e) := by
  show decodeMembers (.cons "id" (.str e.id) (.cons "timestamp" (.str e.timestamp)
    (.cons "level" (.str e.level.serdeName) (.cons "daemon" (.str e.daemon)
      (.cons "message" (.str e.message)
        (.cons "fields" (.obj (fieldsToMembers e.fields))
          (.cons "pid" (pidJson e.pid)
            (.cons "hostname" (hostnameJson e.hostname) .nil)))))))) {} = .ok (rawOf e)
  rw [dmStep_id _ _ _ rfl, dmStep_timestamp _ _ _ rfl, dmStep_level _ _ _ rfl,
    dmStep_daemon _ _ _ rfl, dmStep_message _ _ _ rfl, dmStep_fields _ _ _ rfl hf,
    dmStep_pid _ _ _ rfl hp, dmStep_hostname _ _ _ rfl]
  rfl

theorem finalizeEntry_rawOf (e : LogEntry) : finalizeEntry (rawOf e) = .ok e := rfl

theorem decodeLogEntry_toJsonValue (e : LogEntry) (hf : (e.fields.map Prod.fst).Nodup)
    (hp : ∀ p ∈ e.pid, p < 4294967296) :
    decodeLogEntry e.toJsonValue = .ok e := by
  show (decodeMembers e.jsonMembers {}).bind finalizeEntry = .ok e
  rw [decodeMembers_entry e hf hp]
  rfl

theorem fromJson_toJson (e : LogEntry) (hf : (e.fields.map Prod.fst).Nodup)
    (hp : ∀ p ∈ e.pid, p < 4294967296) :
    LogEntry.fromJson e.toJson = .ok e := by
  unfold LogEntry.fromJson LogEntry.toJson parseJsonString
  rw [show (String.mk (renderJson e.toJsonValue)).data = renderJson e.toJsonValue from rfl]
  rw [parseJsonChars_render]
  exact decodeLogEntry_toJsonValue e hf hp
/-! ## Unknown extras are ignored; missing required fields are errors -/

theorem decodeMembers_entry_extra (e : LogEntry) (hf : (e.fields.map Prod.fst).Nodup)
    (hp : ∀ p ∈ e.pid, p < 4294967296) (k : String) (v : Json) (hk : k ∉ entryKeys) :
    decodeMembers (e.jsonMembers.append (.cons k v .nil)) {} = .ok (rawOf e) := by
  show decodeMembers (.cons "id" (.str e.id) (.cons "timestamp" (.str e.timestamp)
    (.cons "level" (.str e.level.serdeName) (.cons "daemon" (.str e.daemon)
      (.cons "message" (.str e.message)
        (.cons "fields" (.obj (fieldsToMembers e.fields))
          (.cons "pid" (pidJson e.pid)
            (.cons "hostname" (hostnameJson e.hostname)
              (.cons k v .nil))))))))) {} = .ok (rawOf e)
  rw [dmStep_id _ _ _ rfl, dmStep_timestamp _ _ _ rfl, dmStep_level _ _ _ rfl,
    dmStep_daemon _ _ _ rfl, dmStep_message _ _ _ rfl, dmStep_fields _ _ _ rfl hf,
    dmStep_pid _ _ _ rfl hp, dmStep_hostname _ _ _ rfl, dmStep_unknown _ _ _ _ hk]
  rfl

theorem decodeLogEntry_extra (e : LogEntry) (hf : (e.fields.map Prod.fst).Nodup)
    (hp : ∀ p ∈ e.pid, p < 4294967296) (k : String) (v : Json) (hk : k ∉ entryKeys) :
    decodeLogEntry (.obj (e.jsonMembers.append (.cons k v .nil))) = .ok e := by
  show (decodeMembers (e.jsonMembers.append (.cons k v .nil)) {}).bind finalizeEntry = .ok e
  rw [decodeMembers_entry_extra e hf hp k v hk]
  rfl

theorem decodeLogEntry_missing (e : LogEntry) (hf : (e.fields.map Prod.fst).Nodup)
    (hp : ∀ p ∈ e.pid, p < 4294967296) (r : String)
    (hr : r ∈ ["id", "timestamp", "level", "daemon", "message", "fields"]) :
    decodeLogEntry (.obj (e.jsonMembers.erase r)) = .error "missing field" := by
  fin_cases hr
  · show (decodeMembers (e.jsonMembers.erase "id") {}).bind finalizeEntry = _
    rw [show e.jsonMembers.erase "id" = (.cons "timestamp" (.str e.timestamp)
      (.cons "level" (.str e.level.serdeName) (.cons "daemon" (.str e.daemon)
        (.cons "message" (.str e.message)
          (.cons "fields" (.obj (fieldsToMembers e.fields))
            (.cons "pid" (pidJson e.pid)
              (.cons "hostname" (hostnameJson e.hostname) .nil))))))) from rfl]
    rw [dmStep_timestamp _ _ _ rfl, dmStep_level _ _ _ rfl,
      dmStep_daemon _ _ _ rfl, dmStep_message _ _ _ rfl, dmStep_fields _ _ _ rfl hf,
      dmStep_pid _ _ _ rfl hp, dmStep_hostname _ _ _ rfl]
    rfl
  · show (decodeMembers (e.jsonMembers.erase "timestamp") {}).bind finalizeEntry = _
    rw [show e.jsonMembers.erase "timestamp" = (.cons "id" (.str e.id)
      (.cons "level" (.str e.level.serdeName) (.cons "daemon" (.str e.daemon)
        (.cons "message" (.str e.message)
          (.cons "fields" (.obj (fieldsToMembers e.fields))
            (.cons "pid" (pidJson e.pid)
              (.cons "hostname" (hostnameJson e.hostname) .nil))))))) from rfl]
    rw [dmStep_id _ _ _ rfl, dmStep_level _ _ _ rfl,
      dmStep_daemon _ _ _ rfl, dmStep_message _ _ _ rfl, dmStep_fields _ _ _ rfl hf,
      dmStep_pid _ _ _ rfl hp, dmStep_hostname _ _ _ rfl]
    rfl
  · show (decodeMembers (e.jsonMembers.erase "level") {}).bind finalizeEntry = _
    rw [show e.jsonMembers.erase "level" = (.cons "id" (.str e.id)
      (.cons "timestamp" (.str e.timestamp) (.cons "daemon" (.str e.daemon)
        (.cons "message" (.str e.message)
          (.cons "fields" (.obj (fieldsToMembers e.fields))
            (.cons "pid" (pidJson e.pid)
              (.cons "hostname" (hostnameJson e.hostname) .nil))))))) from rfl]
    rw [dmStep_id _ _ _ rfl, dmStep_timestamp _ _ _ rfl,
      dmStep_daemon _ _ _ rfl, dmStep_message _ _ _ rfl, dmStep_fields _ _ _ rfl hf,
      dmStep_pid _ _ _ rfl hp, dmStep_hostname _ _ _ rfl]
    rfl
  · show (decodeMembers (e.jsonMembers.erase "daemon") {}).bind finalizeEntry = _
    rw [show e.jsonMembers.erase "daemon" = (.cons "id" (.str e.id)
      (.cons "timestamp" (.str e.timestamp) (.cons "level" (.str e.level.serdeName)
        (.cons "message" (.str e.message)
          (.cons "fields" (.obj (fieldsToMembers e.fields))
            (.cons "pid" (pidJson e.pid)
              (.cons "hostname" (hostnameJson e.hostname) .nil))))))) from rfl]
    rw [dmStep_id _ _ _ rfl, dmStep_timestamp _ _ _ rfl, dmStep_level _ _ _ rfl,
      dmStep_message _ _ _ rfl, dmStep_fields _ _ _ rfl hf,
      dmStep_pid _ _ _ rfl hp, dmStep_hostname _ _ _ rfl]
    rfl
  · show (decodeMembers (e.jsonMembers.erase "message") {}).bind finalizeEntry = _
    rw [show e.jsonMembers.erase "message" = (.cons "id" (.str e.id)
      (.cons "timestamp" (.str e.timestamp) (.cons "level" (.str e.level.serdeName)
        (.cons "daemon" (.str e.daemon)
          (.cons "fields" (.obj (fieldsToMembers e.fields))
            (.cons "pid" (pidJson e.pid)
              (.cons "hostname" (hostnameJson e.hostname) .nil))))))) from rfl]
    rw [dmStep_id _ _ _ rfl, dmStep_timestamp _ _ _ rfl, dmStep_level _ _ _ rfl,
      dmStep_daemon _ _ _ rfl, dmStep_fields _ _ _ rfl hf,
      dmStep_pid _ _ _ rfl hp, dmStep_hostname _ _ _ rfl]
    rfl
  · show (decodeMembers (e.jsonMembers.erase "fields") {}).bind finalizeEntry = _
    rw [show e.jsonMembers.erase "fields" = (.cons "id" (.str e.id)
      (.cons "timestamp" (.str e.timestamp) (.cons "level" (.str e.level.serdeName)
        (.cons "daemon" (.str e.daemon)
          (.cons "message" (.str e.message)
            (.cons "pid" (pidJson e.pid)
              (.cons "hostname" (hostnameJson e.hostname) .nil))))))) from rfl]
    rw [dmStep_id _ _ _ rfl, dmStep_timestamp _ _ _ rfl, dmStep_level _ _ _ rfl,
      dmStep_daemon _ _ _ rfl, dmStep_message _ _ _ rfl,
      dmStep_pid _ _ _ rfl hp, dmStep_hostname _ _ _ rfl]
    rfl

/-! ## Storage and per-connection handler lemmas -/

theorem find?_eq_none_of_any_false (st : StorageState) (d : String)
    (h : st.any (fun p => p.1 = d) = false) :
    st.find? (fun p => p.1 = d) = none := by
  induction st with
  | nil => rfl
  | cons a st ih =>
    simp only [List.any_cons, Bool.or_eq_false_iff] at h
    simp only [List.find?_cons, h.1]
    exact ih h.2

theorem fileLines_map_update (st : StorageState) (d : String) (line : String)
    (h : st.any (fun p => p.1 = d) = true) :
    fileLines (st.map (fun p => if p.1 = d then (p.1, p.2 ++ [line]) else p)) d
      = fileLines st d ++ [line] := by
  induction st with
  | nil => simp at h
  | cons a st ih =>
    obtain ⟨a1, a2⟩ := a
    by_cases ha : a1 = d
    · subst ha
      simp [fileLines, List.find?_cons]
    · have h2 : st.any (fun p => p.1 = d) = true := by
        simp only [List.any_cons, Bool.or_eq_true] at h
        rcases h with h | h
        · exact absurd (by simpa using h) ha
        · exact h
      have hih := ih h2
      simp only [fileLines, List.map_cons, List.find?_cons] at hih ⊢
      rw [if_neg ha]
      simp only [show (decide (a1 = d)) = false from by simp [ha]]
      exact hih

theorem fileLines_appendLine (st : StorageState) (d : String) (line : String) :
    fileLines (appendLine st d line) d = fileLines st d ++ [line] := by
  unfold appendLine
  cases hany : st.any (fun p => p.1 = d) with
  | true =>
    rw [if_pos rfl]
    exact fileLines_map_update st d line hany
  | false =>
    rw [if_neg (by simp)]
    have hn := find?_eq_none_of_any_false st d hany
    unfold fileLines
    rw [List.find?_append, hn]
    simp

/-! handleConnection step lemmas -/

theorem handleConnection_cons_ok {σ ε : Type} (f : LogEntry → σ → Except ε σ)
    (l : String) (ls : List String) (st : σ) (e : LogEntry)
    (hl : LogEntry.fromJson (strTrim l) = .ok e) :
    handleConnection f (l :: ls) st =
      match f e st with
      | .ok st2 => handleConnection f ls st2
      | .error err => .error err := by
  conv_lhs => rw [handleConnection]
  rw [hl]
  try rfl

theorem handleConnection_cons_err {σ ε : Type} (f : LogEntry → σ → Except ε σ)
    (l : String) (ls : List String) (st : σ) (msg : String)
    (hl : LogEntry.fromJson (strTrim l) = .error msg) :
    handleConnection f (l :: ls) st = handleConnection f ls st := by
  conv_lhs => rw [handleConnection]
  rw [hl]

theorem handleConnection_all_ok (cfg : ServerConfig) :
    ∀ (lines : List String) (entries : List LogEntry) (st : StorageState),
    lines.map (fun l => LogEntry.fromJson (strTrim l)) = entries.map Except.ok →
    handleConnection (connStore cfg) lines st
      = .ok (entries.foldl (fun s e => storeEntry cfg s e) st) := by
  intro lines
  induction lines with
  | nil =>
    intro entries st hp
    cases entries with
    | nil => rfl
    | cons e es => simp at hp
  | cons l ls ih =>
    intro entries st hp
    cases entries with
    | nil => simp at hp
    | cons e es =>
      simp only [List.map_cons, List.cons.injEq] at hp
      obtain ⟨h1, h2⟩ := hp
      rw [handleConnection_cons_ok (connStore cfg) l ls st e h1]
      show handleConnection (connStore cfg) ls (storeEntry cfg st e) = _
      exact ih es (storeEntry cfg st e) h2

theorem foldl_store_same_daemon (cfg : ServerConfig) (D : String)
    (hen : cfg.backends.file.enabled = true) :
    ∀ (entries : List LogEntry) (st : StorageState),
    (∀ e ∈ entries, e.daemon = D) →
    fileLines (entries.foldl (fun s e => storeEntry cfg s e) st) D
      = fileLines st D ++ entries.map (formattedEntry cfg) := by
  intro entries
  induction entries with
  | nil => intro st _; simp
  | cons e es ih =>
    intro st hD
    have hd : e.daemon = D := hD e (by simp)
    simp only [List.foldl_cons]
    rw [ih (storeEntry cfg st e) (fun x hx => hD x (by simp [hx]))]
    have hone : fileLines (storeEntry cfg st e) D
        = fileLines st D ++ [formattedEntry cfg e] := by
      unfold storeEntry
      rw [if_pos hen]
      unfold storeToFile
      rw [hd]
      exact fileLines_appendLine st D (formattedEntry cfg e)
    rw [hone]
    simp

theorem handleConnection_skips_malformed {σ ε : Type} (f : LogEntry → σ → Except ε σ)
    (pre : List String) (bad : String) (post : List String) (st : σ)
    (hbad : parsesAsEntry (strTrim bad) = false) :
    handleConnection f (pre ++ bad :: post) st = handleConnection f (pre ++ post) st := by
  induction pre generalizing st with
  | nil =>
    simp only [List.nil_append]
    unfold parsesAsEntry at hbad
    cases hb : LogEntry.fromJson (strTrim bad) with
    | ok e => rw [hb] at hbad; simp at hbad
    | error msg => exact handleConnection_cons_err f bad post st msg hb
  | cons l ls ih =>
    simp only [List.cons_append]
    cases hl : LogEntry.fromJson (strTrim l) with
    | ok e =>
      rw [handleConnection_cons_ok f l _ st e hl, handleConnection_cons_ok f l _ st e hl]
      cases f e st with
      | ok st2 => exact ih st2
      | error err => rfl
    | error msg =>
      rw [handleConnection_cons_err f l _ st msg hl, handleConnection_cons_err f l _ st msg hl]
      exact ih st

theorem handleConnection_error_from_store {σ ε : Type} (f : LogEntry → σ → Except ε σ) :
    ∀ (lines : List String) (st : σ) (err : ε),
    handleConnection f lines st = .error err →
    ∃ e s, f e s = .error err := by
  intro lines
  induction lines with
  | nil => intro st err h; simp [handleConnection] at h
  | cons l ls ih =>
    intro st err h
    cases hl : LogEntry.fromJson (strTrim l) with
    | ok e =>
      rw [handleConnection_cons_ok f l ls st e hl] at h
      cases hf : f e st with
      | ok st2 =>
        rw [hf] at h
        exact ih st2 err h
      | error err2 =>
        rw [hf] at h
        simp at h
        exact ⟨e, st, by rw [hf, h]⟩
    | error msg =>
      rw [handleConnection_cons_err f l ls st msg hl] at h
      exact ih st err h

/-! ## The claims -/

/-- C1: for every valid LogEntry e (field keys distinct as in a HashMap,
pid in u32 range), parsing the JSON rendering of e succeeds and reproduces
e field-for-field. -/
theorem c1_json_round_trip (e : LogEntry) (hf : (e.fields.map Prod.fst).Nodup)
    (hp : ∀ p ∈ e.pid, p < 4294967296) :
    LogEntry.fromJson e.toJson = .ok e :=
  fromJson_toJson e hf hp

set_option maxRecDepth 10000 in
/-- Witness for C1 at a concrete entry. -/
theorem c1_json_round_trip_witness :
    ((sampleEntry.fields.map Prod.fst).Nodup ∧ ∀ p ∈ sampleEntry.pid, p < 4294967296)
      ∧ LogEntry.fromJson sampleEntry.toJson = .ok sampleEntry :=
  ⟨⟨by decide, by decide⟩, c1_json_round_trip sampleEntry (by decide) (by decide)⟩

/-- C2: N well-formed records on one connection for daemon D are each
forwarded to store in sequence and D's file gains exactly those N lines in
the order sent. -/
theorem c2_connection_ordered_append (cfg : ServerConfig) (D : String)
    (lines : List String) (entries : List LogEntry) (st : StorageState)
    (hen : cfg.backends.file.enabled = true)
    (hparse : lines.map (fun l => LogEntry.fromJson (strTrim l)) = entries.map Except.ok)
    (hD : ∀ e ∈ entries, e.daemon = D) :
    handleConnection (connStore cfg) lines st
        = .ok (entries.foldl (fun s e => storeEntry cfg s e) st)
      ∧ fileLines (entries.foldl (fun s e => storeEntry cfg s e) st) D
        = fileLines st D ++ entries.map (formattedEntry cfg)
      ∧ (fileLines (entries.foldl (fun s e => storeEntry cfg s e) st) D).length
        = (fileLines st D).length + lines.length := by
  have h1 := handleConnection_all_ok cfg lines entries st hparse
  have h2 := foldl_store_same_daemon cfg D hen entries st hD
  have hlen : lines.length = entries.length := by
    have := congrArg List.length hparse
    simpa using this
  refine ⟨h1, h2, ?_⟩
  rw [h2]
  simp [hlen]

set_option maxRecDepth 10000 in
/-- Witness for C2: two records for one daemon on one connection. -/
theorem c2_connection_ordered_append_witness :
    ([sampleEntry.toJson, sampleEntry2.toJson].map
        (fun l => LogEntry.fromJson (strTrim l))
      = [sampleEntry, sampleEntry2].map Except.ok)
    ∧ (handleConnection (connStore cfgDefault)
          [sampleEntry.toJson, sampleEntry2.toJson] []
        = .ok ([sampleEntry, sampleEntry2].foldl
            (fun s e => storeEntry cfgDefault s e) [])
      ∧ fileLines ([sampleEntry, sampleEntry2].foldl
            (fun s e => storeEntry cfgDefault s e) []) "test-daemon"
        = fileLines [] "test-daemon"
            ++ [sampleEntry, sampleEntry2].map (formattedEntry cfgDefault)
      ∧ (fileLines ([sampleEntry, sampleEntry2].foldl
            (fun s e => storeEntry cfgDefault s e) []) "test-daemon").length
        = (fileLines ([] : StorageState) "test-daemon").length
            + [sampleEntry.toJson, sampleEntry2.toJson].length) :=
  ⟨by decide,
   c2_connection_ordered_append cfgDefault "test-daemon"
     [sampleEntry.toJson, sampleEntry2.toJson] [sampleEntry, sampleEntry2] []
     (by decide) (by decide) (by decide)⟩

/-- C3: a malformed line is dropped and the loop continues with the rest of
the stream, and the only errors the handler ever propagates as connection
termination are errors returned by store. -/
theorem c3_malformed_dropped_only_storage_errors {σ ε : Type}
    (f : LogEntry → σ → Except ε σ) (pre : List String) (bad : String)
    (post : List String) (st : σ)
    (hbad : parsesAsEntry (strTrim bad) = false) :
    handleConnection f (pre ++ bad :: post) st = handleConnection f (pre ++ post) st
    ∧ ∀ err, handleConnection f (pre ++ bad :: post) st = .error err →
        ∃ e s, f e s = .error err := by
  refine ⟨handleConnection_skips_malformed f pre bad post st hbad, ?_⟩
  intro err herr
  exact handleConnection_error_from_store f (pre ++ bad :: post) st err herr

set_option maxRecDepth 10000 in
/-- Witness for C3: an unparseable line between two valid ones. -/
theorem c3_malformed_dropped_witness :
    parsesAsEntry (strTrim "not json") = false
    ∧ (handleConnection (connStore cfgDefault)
          ([sampleEntry.toJson] ++ "not json" :: [sampleEntry2.toJson]) []
        = handleConnection (connStore cfgDefault)
            ([sampleEntry.toJson] ++ [sampleEntry2.toJson]) []
      ∧ ∀ err, handleConnection (connStore cfgDefault)
          ([sampleEntry.toJson] ++ "not json" :: [sampleEntry2.toJson]) []
            = .error err →
          ∃ e s, connStore cfgDefault e s = .error err) :=
  ⟨by decide,
   c3_malformed_dropped_only_storage_errors (connStore cfgDefault)
     [sampleEntry.toJson] "not json" [sampleEntry2.toJson] [] (by decide)⟩

/-- C4: with the file backend disabled, store_entry returns success, writes
nothing, and creates no file. -/
theorem c4_disabled_backend_noop_success (cfg : ServerConfig)
    (hdis : cfg.backends.file.enabled = false) (e : LogEntry) (st : StorageState) :
    connStore cfg e st = .ok st
    ∧ storeEntry cfg st e = st
    ∧ ∀ d, fileExists (storeEntry cfg st e) d = fileExists st d := by
  have h : storeEntry cfg st e = st := by
    unfold storeEntry
    rw [hdis]
    rfl
  exact ⟨by unfold connStore; rw [h], h, fun d => by rw [h]⟩

/-- Witness for C4 at the default configuration with the backend disabled. -/
theorem c4_disabled_backend_witness :
    cfgDisabled.backends.file.enabled = false
    ∧ (connStore cfgDisabled sampleEntry [] = .ok []
      ∧ storeEntry cfgDisabled [] sampleEntry = []
      ∧ ∀ d, fileExists (storeEntry cfgDisabled [] sampleEntry) d
          = fileExists ([] : StorageState) d) :=
  ⟨by decide, c4_disabled_backend_noop_success cfgDisabled (by decide) sampleEntry []⟩

/-- C5: the JSON rendering of any LogEntry parses back as a JSON object
(it is syntactically valid JSON), its member keys are exactly the eight
wire fields in order (fields present even when empty), and the level
member is the string name of the severity, e.g. "Warning". -/
theorem c5_json_rendering_valid_complete (e : LogEntry) :
    parseJsonString e.toJson = some e.toJsonValue
    ∧ e.toJsonValue = .obj e.jsonMembers
    ∧ e.jsonMembers.keys = entryKeys
    ∧ e.jsonMembers.lookup "level" = some (.str e.level.serdeName)
    ∧ LogLevel.warning.serdeName = "Warning" := by
  refine ⟨?_, rfl, rfl, rfl, rfl⟩
  show parseJsonChars (String.mk (renderJson e.toJsonValue)).data = some e.toJsonValue
  rw [show (String.mk (renderJson e.toJsonValue)).data = renderJson e.toJsonValue from rfl]
  exact parseJsonChars_render e.toJsonValue

/-- C6: parsing is strict but tolerant of extras: an object with an unknown
extra member parses to the same entry with the extra ignored, and an object
missing any required member yields a parse error value, not a crash. -/
theorem c6_parse_tolerant_strict (e : LogEntry) (hf : (e.fields.map Prod.fst).Nodup)
    (hp : ∀ p ∈ e.pid, p < 4294967296) :
    (∀ (k : String) (v : Json), k ∉ entryKeys →
      LogEntry.fromJson ⟨renderJson (.obj (e.jsonMembers.append (.cons k v .nil)))⟩
        = .ok e)
    ∧ ∀ r ∈ ["id", "timestamp", "level", "daemon", "message", "fields"],
      LogEntry.fromJson ⟨renderJson (.obj (e.jsonMembers.erase r))⟩
        = .error "missing field" := by
  constructor
  · intro k v hk
    unfold LogEntry.fromJson parseJsonString
    rw [show (String.mk (renderJson (Json.obj (e.jsonMembers.append
        (JMembers.cons k v JMembers.nil))))).data
      = renderJson (.obj (e.jsonMembers.append (.cons k v .nil))) from rfl]
    rw [parseJsonChars_render]
    exact decodeLogEntry_extra e hf hp k v hk
  · intro r hr
    unfold LogEntry.fromJson parseJsonString
    rw [show (String.mk (renderJson (Json.obj (e.jsonMembers.erase r)))).data
      = renderJson (.obj (e.jsonMembers.erase r)) from rfl]
    rw [parseJsonChars_render]
    exact decodeLogEntry_missing e hf hp r hr

set_option maxRecDepth 10000 in
/-- Witness for C6: an extra member is ignored; removing daemon is an
error. -/
theorem c6_parse_tolerant_strict_witness :
    ("extra" ∉ entryKeys
      ∧ LogEntry.fromJson
          ⟨renderJson (.obj (sampleEntry.jsonMembers.append
            (.cons "extra" (Json.num 7) .nil)))⟩ = .ok sampleEntry)
    ∧ LogEntry.fromJson ⟨renderJson (.obj (sampleEntry.jsonMembers.erase "daemon"))⟩
        = .error "missing field" :=
  ⟨⟨by decide,
    (c6_parse_tolerant_strict sampleEntry (by decide) (by decide)).1
      "extra" (Json.num 7) (by decide)⟩,
   (c6_parse_tolerant_strict sampleEntry (by decide) (by decide)).2
     "daemon" (by decide)⟩

/-- C7: the rotation task never prunes: with rotation enabled and
keep_files = 1, an archive directory already holding three archived files
for a daemon is unchanged by any number of scan ticks — the tick body of
start_rotation_task is empty, so no rotation or retention enforcement ever
happens. -/
theorem c7_rotation_tick_never_prunes :
    cfgKeepOne.storage.rotation.enabled = true
    ∧ cfgKeepOne.storage.rotation.keepFiles = 1
    ∧ runRotationTask cfgKeepOne 5 archThree = archThree
    ∧ archivedCount archThree "daemon-a" = 3
    ∧ cfgKeepOne.storage.rotation.keepFiles < archivedCount archThree "daemon-a" := by
  refine ⟨rfl, rfl, ?_, rfl, by decide⟩
  rfl

/-- C8: LogServer::start runs only the Unix socket listener: the rotation
task is not among the components it starts, for any configuration. -/
theorem c8_start_runs_only_listener :
    (∀ cfg : ServerConfig, logServerStartTasks cfg = [ServerTask.unixListener])
    ∧ ServerTask.rotationTask ∉ logServerStartTasks cfgDefault := by
  exact ⟨fun _ => rfl, by decide⟩

/-- C9: the derived comparison of LogLevel agrees with the explicit
numeric ranks, and the eight levels carry the distinct ranks 0 through 7
in declaration order. -/
theorem c9_level_order_matches_rank :
    (∀ a b : LogLevel, compare a b = compare a.toNat b.toNat)
    ∧ [LogLevel.emergency, .alert, .critical, .error, .warning, .notice, .info,
        .debug].map LogLevel.toNat = [0, 1, 2, 3, 4, 5, 6, 7]
    ∧ ([LogLevel.emergency, .alert, .critical, .error, .warning, .notice, .info,
        .debug].map LogLevel.toNat).Nodup := by
  refine ⟨?_, by decide, by decide⟩
  intro a b
  cases a <;> cases b <;> rfl

/-- C10: with any file format other than "json", the stored line is the
human-readable rendering, which is built from timestamp, level, daemon and
message only: two entries agreeing on those four fields render
identically regardless of id, fields, pid and hostname. -/
theorem c10_human_format_four_fields (cfg : ServerConfig)
    (hfmt : cfg.backends.file.format ≠ "json")
    (hen : cfg.backends.file.enabled = true) (st : StorageState)
    (e e2 : LogEntry) (ht : e2.timestamp = e.timestamp) (hl : e2.level = e.level)
    (hd : e2.daemon = e.daemon) (hm : e2.message = e.message) :
    fileLines (storeEntry cfg st e) e.daemon
      = fileLines st e.daemon ++ [e.toHumanReadable]
    ∧ e2.toHumanReadable = e.toHumanReadable := by
  constructor
  · unfold storeEntry
    rw [if_pos hen]
    unfold storeToFile formattedEntry
    rw [if_neg hfmt]
    exact fileLines_appendLine st e.daemon e.toHumanReadable
  · unfold LogEntry.toHumanReadable
    rw [ht, hl, hd, hm]

/-- Witness for C10: the human format stores the four-field rendering and
ignores the entry's id, fields, pid and hostname. -/
theorem c10_human_format_witness :
    (cfgHuman.backends.file.format ≠ "json" ∧ cfgHuman.backends.file.enabled = true
      ∧ sampleEntry3.timestamp = sampleEntry.timestamp
      ∧ sampleEntry3.level = sampleEntry.level
      ∧ sampleEntry3.daemon = sampleEntry.daemon
      ∧ sampleEntry3.message = sampleEntry.message)
    ∧ (fileLines (storeEntry cfgHuman [] sampleEntry) sampleEntry.daemon
        = fileLines ([] : StorageState) sampleEntry.daemon
            ++ [sampleEntry.toHumanReadable]
      ∧ sampleEntry3.toHumanReadable = sampleEntry.toHumanReadable) :=
  ⟨⟨by decide, by decide, by decide, by decide, by decide, by decide⟩,
   c10_human_format_four_fields cfgHuman (by decide) (by decide) [] sampleEntry
     sampleEntry3 (by decide) (by decide) (by decide) (by decide)⟩

end LogStream
